import Mathlib

/-!
Verification of the chessboard-calibration pipeline glue code
(`visioncg/cbcalib.py`) against its specification.

The numerical vision library (OpenCV) is external: every call into it is
modelled as an oracle function passed as an explicit argument.  The pure
glue logic (result normalisation, batch mapping, stereo pair filtering,
index computation, object-point grid construction, reprojection RMS,
default arguments, pipeline wiring) is embedded faithfully below.
-/

set_option autoImplicit false

/-- A 2-D image point (pixel coordinates, modelled as rationals). -/
abbrev Pt2 : Type := ℚ × ℚ

/-- A 3-D object point. -/
abbrev Pt3 : Type := ℚ × ℚ × ℚ

/-- Embeds `cbc_opencv_to_numpy(success, cbc_res)`: if `success` holds, the
raw OpenCV corner array of shape `(n, 1, 2)` (a list of singleton rows) is
reshaped to `(n, 2)` (flattened, one point per row); otherwise the result
is the absent marker `None`, embedded as `none`. -/
def cbc_opencv_to_numpy {γ : Type} (success : Bool) (cbc_res : List (List γ)) :
    Option (List γ) :=
  if success then some cbc_res.flatten else none

/-- Embeds `find_cbc(im, ...)`.  The body is a call into OpenCV
(`cv2.findChessboardCorners` followed, on success, by in-place
`cv2.cornerSubPix` refinement), so it is modelled as the application of an
oracle `f` returning the post-refinement pair `(found, corners)`. -/
def find_cbc {α γ : Type} (f : α → Bool × List (List γ)) (im : α) :
    Bool × List (List γ) :=
  f im

/-- Embeds `find_corners_in_one_image(im, ...)`: run `find_cbc` and
normalise its `(found, corners)` result with `cbc_opencv_to_numpy`. -/
def find_corners_in_one_image {α γ : Type} (f : α → Bool × List (List γ))
    (im : α) : Option (List γ) :=
  cbc_opencv_to_numpy (find_cbc f im).1 (find_cbc f im).2

/-- Embeds `prepare_corners(images, ...)`: run single-image corner
detection over the ordered image collection, keeping one result (present
points or absent marker) per image, in order. -/
def prepare_corners {α γ : Type} (f : α → Bool × List (List γ))
    (images : List α) : List (Option (List γ)) :=
  images.map (fun im => find_corners_in_one_image f im)

/-- Embeds `prepare_corners_stereo(images1, images2, ...)`: detect corners
in both collections, then walk `zip(corners1, corners2)` keeping exactly
the pairs where neither side is the absent marker; returns the two filtered
lists and the count of kept pairs (`num_images = len(res1)`). -/
def prepare_corners_stereo {α γ : Type} (f : α → Bool × List (List γ))
    (images1 images2 : List α) :
    List (Option (List γ)) × List (Option (List γ)) × Nat :=
  let corners1 := prepare_corners f images1
  let corners2 := prepare_corners f images2
  let kept := (corners1.zip corners2).filter (fun p => p.1.isSome && p.2.isSome)
  let res1 := kept.map Prod.fst
  let res2 := kept.map Prod.snd
  (res1, res2, res1.length)

/-- Embeds the flat index matrix `np.indices((w, h)).T.reshape(-1, 2)` used
by `get_pattern_points`: `np.indices((w, h))` has entries
`indices[0][i][j] = i`, `indices[1][i][j] = j`; its transpose has entry
`T[j][i] = (i, j)`; reshaping to `(-1, 2)` enumerates `j` (outer) then `i`
(inner), so flat row `j * w + i` holds `(i, j)`. -/
def np_indices_T_flat (wh : Nat × Nat) : List (Nat × Nat) :=
  (List.range wh.2).flatMap (fun j => (List.range wh.1).map (fun i => (i, j)))

/-- Embeds `get_pattern_points(pattern_size_wh, square_size)`: a
`(prod wh) × 3` matrix whose first two columns are the flat index grid and
whose third column is zero, all multiplied by `square_size` (the `*=`
multiplies every column, leaving the zero third column zero). -/
def get_pattern_points (wh : Nat × Nat) (square_size : ℚ) : List Pt3 :=
  (np_indices_T_flat wh).map
    (fun p => (square_size * (p.1 : ℚ), square_size * (p.2 : ℚ), square_size * 0))

/-- Embeds `make_list_of_identical_pattern_points(num_images,
pattern_points)`: the comprehension `[pattern_points for i in
range(num_images)]`. -/
def make_list_of_identical_pattern_points {β : Type} (num_images : Nat)
    (pattern_points : β) : List β :=
  (List.range num_images).map (fun _ => pattern_points)

/-- Embeds `prepare_object_points(num_images, pattern_size_wh,
square_size)`. -/
def prepare_object_points (num_images : Nat) (wh : Nat × Nat)
    (square_size : ℚ) : List (List Pt3) :=
  make_list_of_identical_pattern_points num_images (get_pattern_points wh square_size)

/-- Embeds the loop of `prepare_indices_stereocalib`: walk the zipped pair
list with a running index `idx`, collecting `idx` whenever neither side of
the pair is the absent marker. -/
def prepare_indices_loop {γ : Type} :
    Nat → List (Option γ × Option γ) → List Nat
  | _, [] => []
  | idx, p :: rest =>
      if p.1.isSome && p.2.isSome then idx :: prepare_indices_loop (idx + 1) rest
      else prepare_indices_loop (idx + 1) rest

/-- Embeds `prepare_indices_stereocalib(corners1, corners2)`: the indices
(from 0) at which neither `corners1` nor `corners2` holds the absent
marker, walking `zip(corners1, corners2)`. -/
def prepare_indices_stereocalib {γ : Type} (corners1 corners2 : List (Option γ)) :
    List Nat :=
  prepare_indices_loop 0 (corners1.zip corners2)

/-- The result quadruple of `cv2.solvePnPRansac`: success flag, rotation
vector, translation vector, inlier indices. -/
abbrev PnPResult : Type := Bool × Pt3 × Pt3 × List Nat

/-- Embeds `solve_pnp_ransac(pattern_points, image_points, cam_matrix,
dist_coefs, use_extrinsic_guess=False, iter_count=100,
reproj_err_threshold=8.0, confidence=0.99)`: a direct delegation to the
external solver `cv2.solvePnPRansac` (modelled as the oracle argument),
passing the four data arguments and the four optional parameters through
positionally, with the same default values as the source. -/
def solve_pnp_ransac {P I C D : Type}
    (solvePnPRansac : P → I → C → D → Bool → Nat → ℚ → ℚ → PnPResult)
    (pattern_points : P) (image_points : I) (cam_matrix : C) (dist_coefs : D)
    (use_extrinsic_guess : Bool := false) (iter_count : Nat := 100)
    (reproj_err_threshold : ℚ := 8) (confidence : ℚ := 99 / 100) : PnPResult :=
  solvePnPRansac pattern_points image_points cam_matrix dist_coefs
    use_extrinsic_guess iter_count reproj_err_threshold confidence

/-- Embeds `reprojection_rms(impoints_known, impoints_reprojected)`:
elementwise difference of the two `(n, 2)` arrays, per-row sum of squares,
mean, square root.  Coordinates are modelled as reals so that `np.sqrt` is
`Real.sqrt`. -/
noncomputable def reprojection_rms
    (impoints_known impoints_reprojected : List (ℝ × ℝ)) : ℝ :=
  let diff := List.zipWith (fun p q => (p.1 - q.1, p.2 - q.2))
    impoints_known impoints_reprojected
  let squared_distances := diff.map (fun d => d.1 ^ 2 + d.2 ^ 2)
  Real.sqrt (squared_distances.sum / (squared_distances.length : ℝ))

/-- Embeds the `count_images` stage of `CGCalibrateCamera`:
`lambda lst: len(lst)`. -/
def count_images {α : Type} (lst : List α) : Nat :=
  lst.length

/-- Embeds the dataflow of the `CGCalibrateCamera` computation graph up to
the external solver call: `image_points` is the output of
`prepare_corners` on `calibration_images`; `num_images` is
`count_images(calibration_images)`; `object_points` is
`prepare_object_points(num_images, pattern_size_wh, square_size)`; the
pair `(object_points, image_points)` is what the graph wires into the
`calibrate_camera` stage (itself a single `cv2.calibrateCamera` call). -/
def CGCalibrateCamera_solver_args {α γ : Type} (f : α → Bool × List (List γ))
    (calibration_images : List α) (pattern_size_wh : Nat × Nat)
    (square_size : ℚ) : List (List Pt3) × List (Option (List γ)) :=
  let image_points := prepare_corners f calibration_images
  let num_images := count_images calibration_images
  let object_points := prepare_object_points num_images pattern_size_wh square_size
  (object_points, image_points)

/-- A detection oracle whose per-image result is the image value itself
(an optional corner list): it lets the batch-preparation functions be
instantiated on arbitrary corner-result lists. -/
def id_detector {γ : Type} : Option (List γ) → Bool × List (List γ)
  | some pts => (true, [pts])
  | none => (false, [])

/-- Spec-side construct for the refinement claim about the two stereo
filtering paths: the sublist of `l` obtained by selecting its elements at
the positions `idxs`. -/
def select_at_indices {β : Type} (l : List β) (idxs : List Nat) : List β :=
  idxs.filterMap (fun i => l[i]?)

/-! ### Helper lemmas -/

theorem prepare_corners_id_detector {γ : Type} (c : List (Option (List γ))) :
    prepare_corners id_detector c = c := by
  induction c with
  | nil => rfl
  | cons a t ih =>
      cases a <;>
        simp [prepare_corners, find_corners_in_one_image, find_cbc,
          cbc_opencv_to_numpy, id_detector] at ih ⊢ <;> exact ih

/-! ### Claim theorems -/

/-- C2: batch corner preparation returns exactly one result per input
image, in input order: the output has the same length as the input, its
entry at every index `i` is exactly the single-image detection result for
the input image at index `i` (present on success, absent on failure), and
the number of present entries equals the number of images on which
detection succeeds. -/
theorem prepare_corners_batch_spec {α γ : Type}
    (f : α → Bool × List (List γ)) (images : List α) :
    (prepare_corners f images).length = images.length
    ∧ (∀ i : Nat, (prepare_corners f images)[i]? =
        (images[i]?).map (fun im => find_corners_in_one_image f im))
    ∧ (prepare_corners f images).countP (fun r => r.isSome) =
        images.countP (fun im => (find_corners_in_one_image f im).isSome) := by
  refine ⟨by simp [prepare_corners], fun i => ?_, ?_⟩
  · simp [prepare_corners]
  · simp only [prepare_corners, List.countP_map]
    rfl

/-- C4: single-image corner detection is a total function whose result
value alone signals failure: the result is the absent marker `none`
exactly when the external finder reports the pattern as not found, and on
success it is the raw corner rows flattened to one 2-D point per row. -/
theorem find_corners_in_one_image_signals_failure {α γ : Type}
    (f : α → Bool × List (List γ)) (im : α) :
    (find_corners_in_one_image f im = none ↔ (f im).1 = false)
    ∧ find_corners_in_one_image f im =
        (if (f im).1 then some (f im).2.flatten else none) := by
  constructor
  · cases h : (f im).1 <;>
      simp [find_corners_in_one_image, find_cbc, cbc_opencv_to_numpy, h]
  · cases h : (f im).1 <;>
      simp [find_corners_in_one_image, find_cbc, cbc_opencv_to_numpy, h]

/-- C9: called without overriding the optional parameters,
`solve_pnp_ransac` delegates to the external solver with
`use_extrinsic_guess = false`, `iter_count = 100`,
`reproj_err_threshold = 8.0` and `confidence = 0.99`, and its result is a
quadruple carrying a success flag, a rotation vector and a translation
vector (plus the inlier list). -/
theorem solve_pnp_ransac_default_args {P I C D : Type}
    (solver : P → I → C → D → Bool → Nat → ℚ → ℚ → PnPResult)
    (pp : P) (ip : I) (cm : C) (dc : D) :
    solve_pnp_ransac solver pp ip cm dc =
      solver pp ip cm dc false 100 8 (99 / 100)
    ∧ ∃ (retval : Bool) (rvec tvec : Pt3) (inliers : List Nat),
        solve_pnp_ransac solver pp ip cm dc = (retval, rvec, tvec, inliers) := by
  refine ⟨rfl, ?_⟩
  rcases h : solver pp ip cm dc false 100 8 (99 / 100) with ⟨b, rv, tv, inl⟩
  exact ⟨b, rv, tv, inl, h⟩

theorem prepare_indices_loop_succ {γ : Type} :
    ∀ (l : List (Option γ × Option γ)) (k : Nat),
      prepare_indices_loop (k + 1) l = (prepare_indices_loop k l).map Nat.succ := by
  intro l
  induction l with
  | nil => intro k; rfl
  | cons p rest ih =>
      intro k
      by_cases hp : (p.1.isSome && p.2.isSome) = true <;>
        simp [prepare_indices_loop, hp, ih]

theorem select_at_indices_cons_succ {β : Type} (a : β) (t : List β)
    (idxs : List Nat) :
    select_at_indices (a :: t) (idxs.map Nat.succ) = select_at_indices t idxs := by
  have hfun : ((fun i => (a :: t)[i]?) ∘ Nat.succ) = fun i : Nat => t[i]? :=
    funext (fun i => List.getElem?_cons_succ)
  simp only [select_at_indices, List.filterMap_map, hfun]

theorem stereo_filter_eq_select {γ : Type} :
    ∀ (c1 c2 : List (Option γ)),
      ((c1.zip c2).filter (fun p => p.1.isSome && p.2.isSome)).map Prod.fst =
        select_at_indices c1 (prepare_indices_stereocalib c1 c2)
      ∧ ((c1.zip c2).filter (fun p => p.1.isSome && p.2.isSome)).map Prod.snd =
        select_at_indices c2 (prepare_indices_stereocalib c1 c2) := by
  intro c1
  induction c1 with
  | nil =>
      intro c2
      simp [prepare_indices_stereocalib, prepare_indices_loop, select_at_indices]
  | cons a t1 ih =>
      intro c2
      cases c2 with
      | nil =>
          simp [prepare_indices_stereocalib, prepare_indices_loop,
            select_at_indices]
      | cons b t2 =>
          have hzip : (a :: t1).zip (b :: t2) = (a, b) :: t1.zip t2 := rfl
          have hidx : prepare_indices_stereocalib (a :: t1) (b :: t2) =
              if a.isSome && b.isSome then
                0 :: (prepare_indices_stereocalib t1 t2).map Nat.succ
              else (prepare_indices_stereocalib t1 t2).map Nat.succ := by
            show prepare_indices_loop 0 ((a, b) :: t1.zip t2) = _
            rw [prepare_indices_loop, prepare_indices_loop_succ (t1.zip t2) 0]
            rfl
          by_cases hp : (a.isSome && b.isSome) = true
          · have hfil : ((a :: t1).zip (b :: t2)).filter
                (fun p => p.1.isSome && p.2.isSome) =
                (a, b) :: (t1.zip t2).filter (fun p => p.1.isSome && p.2.isSome) := by
              rw [hzip, List.filter_cons]
              simp [hp]
            have hsel1 : select_at_indices (a :: t1)
                (prepare_indices_stereocalib (a :: t1) (b :: t2)) =
                a :: select_at_indices t1 (prepare_indices_stereocalib t1 t2) := by
              rw [hidx, if_pos hp, select_at_indices, List.filterMap_cons]
              simp only [List.getElem?_cons_zero]
              rw [show List.filterMap (fun i => (a :: t1)[i]?)
                    ((prepare_indices_stereocalib t1 t2).map Nat.succ) =
                  select_at_indices (a :: t1)
                    ((prepare_indices_stereocalib t1 t2).map Nat.succ) from rfl,
                select_at_indices_cons_succ]
            have hsel2 : select_at_indices (b :: t2)
                (prepare_indices_stereocalib (a :: t1) (b :: t2)) =
                b :: select_at_indices t2 (prepare_indices_stereocalib t1 t2) := by
              rw [hidx, if_pos hp, select_at_indices, List.filterMap_cons]
              simp only [List.getElem?_cons_zero]
              rw [show List.filterMap (fun i => (b :: t2)[i]?)
                    ((prepare_indices_stereocalib t1 t2).map Nat.succ) =
                  select_at_indices (b :: t2)
                    ((prepare_indices_stereocalib t1 t2).map Nat.succ) from rfl,
                select_at_indices_cons_succ]
            refine ⟨?_, ?_⟩
            · rw [hfil, List.map_cons, hsel1]
              exact congrArg (List.cons a) (ih t2).1
            · rw [hfil, List.map_cons, hsel2]
              exact congrArg (List.cons b) (ih t2).2
          · have hfil : ((a :: t1).zip (b :: t2)).filter
                (fun p => p.1.isSome && p.2.isSome) =
                (t1.zip t2).filter (fun p => p.1.isSome && p.2.isSome) := by
              rw [hzip, List.filter_cons]
              simp [hp]
            have hidx2 : prepare_indices_stereocalib (a :: t1) (b :: t2) =
                (prepare_indices_stereocalib t1 t2).map Nat.succ := by
              rw [hidx, if_neg hp]
            refine ⟨?_, ?_⟩
            · rw [hfil, hidx2, select_at_indices_cons_succ]
              exact (ih t2).1
            · rw [hfil, hidx2, select_at_indices_cons_succ]
              exact (ih t2).2

/-- C8 (amended): the calibration-oriented filtering path and the
index-only path apply the SAME filtering semantics: for every pair of
per-camera corner-result lists, the filtered pair lists returned by
`prepare_corners_stereo` equal the sublists obtained by selecting, at the
indices returned by `prepare_indices_stereocalib`, the elements of the two
per-camera result lists. -/
theorem stereo_filter_agrees_with_indices {γ : Type}
    (c1 c2 : List (Option (List γ))) :
    (prepare_corners_stereo id_detector c1 c2).1 =
      select_at_indices c1 (prepare_indices_stereocalib c1 c2)
    ∧ (prepare_corners_stereo id_detector c1 c2).2.1 =
      select_at_indices c2 (prepare_indices_stereocalib c1 c2) := by
  have h := stereo_filter_eq_select c1 c2
  simpa [prepare_corners_stereo, prepare_corners_id_detector] using h

/-- C8 (counterexample to the claim as stated): there is NO pair of
per-camera corner-result lists on which the two stereo filtering paths
differ: the lists returned by `prepare_corners_stereo` always coincide
with the selections of the per-camera result lists at the indices returned
by `prepare_indices_stereocalib`. -/
theorem stereo_paths_never_differ :
    ¬ ∃ c1 c2 : List (Option (List Pt2)),
      (prepare_corners_stereo id_detector c1 c2).1 ≠
        select_at_indices c1 (prepare_indices_stereocalib c1 c2)
      ∨ (prepare_corners_stereo id_detector c1 c2).2.1 ≠
        select_at_indices c2 (prepare_indices_stereocalib c1 c2) := by
  rintro ⟨c1, c2, h⟩
  have hagree := stereo_filter_eq_select c1 c2
  rcases h with h | h
  · exact h (by simpa [prepare_corners_stereo, prepare_corners_id_detector]
      using hagree.1)
  · exact h (by simpa [prepare_corners_stereo, prepare_corners_id_detector]
      using hagree.2)

theorem zip_filter_count {γ : Type} :
    ∀ (c1 c2 : List (Option γ)), c1.length = c2.length →
      ((c1.zip c2).filter (fun p => p.1.isSome && p.2.isSome)).length =
      ((List.range c1.length).filter
        (fun i => (c1.getD i none).isSome && (c2.getD i none).isSome)).length := by
  intro c1
  induction c1 with
  | nil => intro c2 h; simp
  | cons a t1 ih =>
      intro c2 h
      cases c2 with
      | nil => simp at h
      | cons b t2 =>
          have ht : t1.length = t2.length := by simpa using h
          have hzip : (a :: t1).zip (b :: t2) = (a, b) :: t1.zip t2 := rfl
          have hfun : ((fun i => ((a :: t1).getD i none).isSome &&
                ((b :: t2).getD i none).isSome) ∘ Nat.succ) =
              (fun i => (t1.getD i none).isSome && (t2.getD i none).isSome) :=
            funext (fun i => rfl)
          rw [hzip, List.length_cons, List.range_succ_eq_map]
          simp only [List.filter_cons, List.getD_cons_zero, List.filter_map,
            hfun, List.length_map]
          by_cases hp : (a.isSome && b.isSome) = true
          · rw [if_pos hp, if_pos hp, List.length_cons, List.length_cons,
              List.length_map, ih t2 ht]
          · rw [if_neg hp, if_neg hp, List.length_map, ih t2 ht]

/-- C1: for every pair of equal-length ordered image collections, the
`num_images` value returned by `prepare_corners_stereo` equals the number
of indices at which both per-camera corner-detection results are
present. -/
theorem prepare_corners_stereo_usable_count {α γ : Type}
    (f : α → Bool × List (List γ)) (images1 images2 : List α)
    (hlen : images1.length = images2.length) :
    (prepare_corners_stereo f images1 images2).2.2 =
      ((List.range images1.length).filter
        (fun i => ((prepare_corners f images1).getD i none).isSome &&
          ((prepare_corners f images2).getD i none).isSome)).length := by
  have h1 : (prepare_corners f images1).length = images1.length := by
    simp [prepare_corners]
  have h2 : (prepare_corners f images2).length = images2.length := by
    simp [prepare_corners]
  have h := zip_filter_count (prepare_corners f images1)
    (prepare_corners f images2) (by rw [h1, h2, hlen])
  rw [h1] at h
  simpa [prepare_corners_stereo] using h

/-- C1 witness: 5 image pairs with a left failure at index 2 and a right
failure at index 3 yield exactly 3 usable pairs, at indices 0, 1, 4. -/
theorem prepare_corners_stereo_usable_count_witness :
    (prepare_corners_stereo (fun b : Bool => (b, [[(0 : Nat)]]))
      [true, true, false, true, true] [true, true, true, false, true]).2.2 = 3
    ∧ prepare_indices_stereocalib
        (prepare_corners (fun b : Bool => (b, [[(0 : Nat)]]))
          [true, true, false, true, true])
        (prepare_corners (fun b : Bool => (b, [[(0 : Nat)]]))
          [true, true, true, false, true]) = [0, 1, 4] :=
  ⟨(prepare_corners_stereo_usable_count (fun b : Bool => (b, [[(0 : Nat)]]))
      [true, true, false, true, true] [true, true, true, false, true]
      rfl).trans (by decide), by decide⟩

/-- C3: the claim states that the single-camera calibration pipeline
passes to the solver only the point sets of successfully-processed images
and replicates the object grid once per successfully-processed image; the
code does neither.  Evaluating the `CGCalibrateCamera` dataflow on two
images of which detection succeeds only on the first: the corners list
wired into the `calibrate_camera` stage still contains the absent marker
of the failed image, and the object-point grid is replicated once per
INPUT image (2 copies) although only 1 image succeeded. -/
theorem cg_calibrate_camera_forwards_absent :
    (CGCalibrateCamera_solver_args (fun b : Bool => (b, [[(0 : Nat)]]))
      [true, false] (2, 2) 1).2 = [some [0], none]
    ∧ (CGCalibrateCamera_solver_args (fun b : Bool => (b, [[(0 : Nat)]]))
      [true, false] (2, 2) 1).1.length = 2
    ∧ ((CGCalibrateCamera_solver_args (fun b : Bool => (b, [[(0 : Nat)]]))
      [true, false] (2, 2) 1).2.countP (fun r => r.isSome)) = 1 := by
  refine ⟨rfl, rfl, rfl⟩

theorem np_indices_T_flat_eq (w h : Nat) :
    np_indices_T_flat (w, h) =
      (List.range (w * h)).map (fun r => (r % w, r / w)) := by
  induction h with
  | zero => simp [np_indices_T_flat]
  | succ h ih =>
      have hsplit : List.range (w * (h + 1)) =
          List.range (w * h) ++ (List.range w).map (fun i => w * h + i) := by
        rw [Nat.mul_succ, List.range_add]
      have hleft : np_indices_T_flat (w, h + 1) =
          np_indices_T_flat (w, h) ++ (List.range w).map (fun i => (i, h)) := by
        simp [np_indices_T_flat, List.range_succ]
      have hseg : ((List.range w).map (fun i => w * h + i)).map
          (fun r => (r % w, r / w)) = (List.range w).map (fun i => (i, h)) := by
        rw [List.map_map]
        refine List.map_congr_left ?_
        intro i hi
        have hiw : i < w := List.mem_range.mp hi
        have hw : 0 < w := Nat.lt_of_le_of_lt (Nat.zero_le i) hiw
        have hmod : (w * h + i) % w = i := by
          rw [Nat.add_comm, Nat.mul_comm, Nat.add_mul_mod_self_right,
            Nat.mod_eq_of_lt hiw]
        have hdiv : (w * h + i) / w = h := by
          rw [Nat.add_comm, Nat.mul_comm, Nat.add_mul_div_right i h hw,
            Nat.div_eq_of_lt hiw, Nat.zero_add]
        simp [Function.comp, hmod, hdiv]
      rw [hleft, ih, hsplit, List.map_append, hseg]

/-- C5: the object-point grid for pattern geometry `(W, H)` and square
size `s` has exactly `W * H` points; the point at flat row `r` has
coordinates `(s * (r mod W), s * (r div W), 0)`, i.e. the `x, y`
coordinates enumerate the `W × H` grid in row-major order scaled by the
square size, and every `z` coordinate is `0`.  In particular, pattern
`(9, 6)` yields `9 * 6 = 54` points. -/
theorem get_pattern_points_grid (wh : Nat × Nat) (s : ℚ) :
    (get_pattern_points wh s).length = wh.1 * wh.2
    ∧ ∀ r : Nat, (get_pattern_points wh s)[r]? =
        if r < wh.1 * wh.2 then
          some (s * ((r % wh.1 : Nat) : ℚ), s * ((r / wh.1 : Nat) : ℚ), 0)
        else none := by
  obtain ⟨w, h⟩ := wh
  rw [get_pattern_points, np_indices_T_flat_eq]
  constructor
  · simp
  · intro r
    by_cases hr : r < w * h
    · rw [List.getElem?_map, List.getElem?_map, List.getElem?_range hr]
      simp [hr]
    · have hlen : (((List.range (w * h)).map (fun r => (r % w, r / w))).map
          (fun p : Nat × Nat =>
            (s * (p.1 : ℚ), s * (p.2 : ℚ), s * 0))).length ≤ r := by
        simpa using Nat.le_of_not_lt hr
      rw [List.getElem?_eq_none hlen, if_neg hr]

/-- C6: the object-point grid built with square size `s` equals the grid
built with square size `1` with every coordinate multiplied by `s`, and
this scaling with `s = 1` is the identity. -/
theorem get_pattern_points_scales (wh : Nat × Nat) (s : ℚ) :
    get_pattern_points wh s =
      (get_pattern_points wh 1).map
        (fun p => (s * p.1, s * p.2.1, s * p.2.2))
    ∧ (get_pattern_points wh 1).map
        (fun p => ((1 : ℚ) * p.1, 1 * p.2.1, 1 * p.2.2)) =
      get_pattern_points wh 1 := by
  constructor
  · rw [get_pattern_points, get_pattern_points, List.map_map]
    refine List.map_congr_left ?_
    intro p _
    simp [Function.comp]
  · rw [get_pattern_points, List.map_map]
    refine List.map_congr_left ?_
    intro p _
    simp [Function.comp]

/-- C7: the reprojection RMS of any point set against itself is exactly
zero. -/
theorem reprojection_rms_self (pts : List (ℝ × ℝ)) :
    reprojection_rms pts pts = 0 := by
  rw [reprojection_rms]
  simp only [List.zipWith_same, List.map_map]
  have hsum : (pts.map ((fun d : ℝ × ℝ => d.1 ^ 2 + d.2 ^ 2) ∘
      fun p : ℝ × ℝ => (p.1 - p.1, p.2 - p.2))).sum = 0 := by
    refine List.sum_eq_zero ?_
    intro x hx
    rcases List.mem_map.mp hx with ⟨p, _, rfl⟩
    simp [Function.comp]
  rw [hsum, zero_div, Real.sqrt_zero]

theorem zip_take_min {α β : Type} :
    ∀ (l1 : List α) (l2 : List β),
      (l1.take (min l1.length l2.length)).zip
        (l2.take (min l1.length l2.length)) = l1.zip l2 := by
  intro l1
  induction l1 with
  | nil => intro l2; simp
  | cons a t1 ih =>
      intro l2
      cases l2 with
      | nil => simp
      | cons b t2 =>
          simp only [List.length_cons, Nat.succ_min_succ, List.take_succ_cons,
            List.zip_cons_cons, ih]

/-- C10: when the two image collections given to stereo batch preparation
have different lengths, no error occurs and only the first
`min(n1, n2)` positions are paired: the result equals the result on both
collections truncated to `min(n1, n2)` elements. -/
theorem prepare_corners_stereo_truncation {α γ : Type}
    (f : α → Bool × List (List γ)) (images1 images2 : List α) :
    prepare_corners_stereo f images1 images2 =
      prepare_corners_stereo f
        (images1.take (min images1.length images2.length))
        (images2.take (min images1.length images2.length)) := by
  have h1 : prepare_corners f
      (images1.take (min images1.length images2.length)) =
      (prepare_corners f images1).take (min images1.length images2.length) := by
    simp [prepare_corners, List.map_take]
  have h2 : prepare_corners f
      (images2.take (min images1.length images2.length)) =
      (prepare_corners f images2).take (min images1.length images2.length) := by
    simp [prepare_corners, List.map_take]
  have hmin : min images1.length images2.length =
      min (prepare_corners f images1).length (prepare_corners f images2).length := by
    simp [prepare_corners]
  simp only [prepare_corners_stereo, h1, h2]
  rw [hmin, zip_take_min]
